import Mathlib

/-!
Shallow embedding of karthic180/mobile-checker-go.

Source files modelled here:
- internal/ofcom/ofcom.go      : `Interpret`, `buildDatabase` row ingestion,
                                 header normalisation, postcode-column normalisation
- internal/checker/checker.go  : `Check`, `CheckMultiple`
- internal/postcode/postcode.go: `Normalise`

Modelling conventions:
- Go `map[string]string` becomes `String → Option String` (Go map lookup is
  the only operation performed on rows).
- Go `float64` values parsed from decimal strings are modelled as exact
  rationals (`ℚ`); `strconv.ParseFloat` is modelled on the decimal syntax
  (optional sign, digits, optional fraction, optional exponent).  The
  floating-point-only artifacts (NaN/Inf tokens, hex floats, underscore
  separators, rounding at the 17th significant digit) are outside the
  real-number domain the specification speaks about.
- Go string primitives (`strings.TrimSpace`, `strings.ToUpper`,
  `strings.ToLower`, `strings.ReplaceAll` with one-character arguments) are
  modelled character-wise on `List Char`, with `unicode.IsSpace` restricted
  to its Latin-1 fragment and case mapping to its ASCII fragment, which
  covers postcode and header data.
- External collaborators (the postcodes.io client, the SQLite store) appear
  as function-typed parameters, exactly at the boundary the code calls them.
-/

namespace MobileChecker

/-- Latin-1 fragment of Go's `unicode.IsSpace`, by code point:
space (32), tab (9), newline (10), vertical tab (11), form feed (12),
carriage return (13), NEL (133), NBSP (160). -/
def goIsSpace (c : Char) : Bool :=
  c.toNat = 32 || c.toNat = 9 || c.toNat = 10 || c.toNat = 11 || c.toNat = 12 ||
  c.toNat = 13 || c.toNat = 133 || c.toNat = 160

/-- ASCII fragment of Go's `unicode.ToUpper` (character-wise):
`a`..`z` (97..122) shift down by 32, everything else is unchanged. -/
def goUpperChar (c : Char) : Char :=
  if 97 ≤ c.toNat ∧ c.toNat ≤ 122 then Char.ofNat (c.toNat - 32) else c

/-- ASCII fragment of Go's `unicode.ToLower` (character-wise):
`A`..`Z` (65..90) shift up by 32, everything else is unchanged. -/
def goLowerChar (c : Char) : Char :=
  if 65 ≤ c.toNat ∧ c.toNat ≤ 90 then Char.ofNat (c.toNat + 32) else c

/-- Go `strings.TrimSpace`: strip leading and trailing whitespace. -/
def trimSpaceList (l : List Char) : List Char :=
  ((l.dropWhile goIsSpace).reverse.dropWhile goIsSpace).reverse

/-- The character pipeline of `postcode.Normalise`: trim edge whitespace,
drop every space character, then uppercase. -/
def normaliseList (l : List Char) : List Char :=
  ((trimSpaceList l).filter (fun c => c ≠ ' ')).map goUpperChar

/-- `postcode.Normalise` (postcode.go) and the identical inline normalisation
in `ofcom.QueryPostcode` / `ofcom.buildDatabase`:
`strings.ToUpper(strings.ReplaceAll(strings.TrimSpace(pc), " ", ""))`. -/
def Normalise (s : String) : String :=
  String.mk (normaliseList s.data)

/-- Decimal digit test, as used by the `strconv.ParseFloat` decimal path. -/
def isDigitChar (c : Char) : Bool :=
  '0' ≤ c && c ≤ '9'

/-- Value of a digit string read left to right. -/
def digitsToNat (l : List Char) : Nat :=
  l.foldl (fun a c => 10 * a + (c.toNat - 48)) 0

/-- The exact rational `sign * d * 10 ^ ex` of a parsed decimal literal,
assembled with a single `mkRat` so that it evaluates by kernel reduction. -/
def ratOfParts (sign : ℤ) (d : Nat) (ex : ℤ) : ℚ :=
  if 0 ≤ ex then mkRat (sign * (d : ℤ) * ((10 ^ ex.toNat : Nat) : ℤ)) 1
  else mkRat (sign * (d : ℤ)) (10 ^ (-ex).toNat)

/-- Exponent-suffix parser used by `parseFloat`: accepts an empty remainder
(exponent 0), or `e`/`E`, an optional sign, and at least one digit consuming
the rest of the input. -/
def parseExpVal (l : List Char) : Option ℤ :=
  match l with
  | [] => some 0
  | c :: t =>
    if c = 'e' ∨ c = 'E' then
      let st : ℤ × List Char := match t with
        | '+' :: u => (1, u)
        | '-' :: u => (-1, u)
        | u => (1, u)
      let ed := st.2.takeWhile isDigitChar
      let rest := st.2.dropWhile isDigitChar
      if ed.isEmpty ∨ ¬ rest.isEmpty then none
      else some (st.1 * (digitsToNat ed : ℤ))
    else none

/-- Mantissa parser for `parseFloat`: optional sign, then digits with an
optional fraction part, then the exponent suffix; at least one digit must be
present in the mantissa.  The mantissa digits `ip.fp` denote
`digitsToNat (ip ++ fp) * 10 ^ (-fp.length)`. -/
def parseFloatList (l : List Char) : Option ℚ :=
  let sl : ℤ × List Char := match l with
    | '+' :: t => (1, t)
    | '-' :: t => (-1, t)
    | t => (1, t)
  let ip := sl.2.takeWhile isDigitChar
  let l2 := sl.2.dropWhile isDigitChar
  match l2 with
  | '.' :: t =>
    let fp := t.takeWhile isDigitChar
    let l3 := t.dropWhile isDigitChar
    if ip.isEmpty ∧ fp.isEmpty then none
    else
      (parseExpVal l3).map (fun e =>
        ratOfParts sl.1 (digitsToNat (ip ++ fp)) (e - (fp.length : ℤ)))
  | _ =>
    if ip.isEmpty then none
    else (parseExpVal l2).map (fun e => ratOfParts sl.1 (digitsToNat ip) e)

/-- Model of `strconv.ParseFloat(v, 64)` on decimal syntax, with the numeric
value taken exactly (see the header comment). `none` models a parse error. -/
def parseFloat (s : String) : Option ℚ :=
  parseFloatList s.data

/-- A raw dataset row, Go `map[string]string`: present keys map to `some`. -/
abbrev Row := String → Option String

/-- The `get` closure inside `ofcom.Interpret`: first candidate key that is
present with a non-empty value, else the empty string. -/
def getFirst (row : Row) : List String → String
  | [] => ""
  | k :: rest =>
    match row k with
    | some v => if v ≠ "" then v else getFirst row rest
    | none => getFirst row rest

/-- The `covered` closure inside `ofcom.Interpret`: resolved value parses and
is at least 0.5. -/
def coveredKeys (row : Row) (keys : List String) : Bool :=
  let v := getFirst row keys
  if v = "" then false
  else
    match parseFloat v with
    | none => false
    | some f => decide (mkRat 1 2 ≤ f)

/-- Round half to even, the rounding `fmt.Sprintf("%.0f", _)` applies. -/
def roundHalfEven (x : ℚ) : ℤ :=
  let fl := ⌊x⌋
  let r := x - (fl : ℚ)
  if r < 1 / 2 then fl
  else if 1 / 2 < r then fl + 1
  else if fl % 2 = 0 then fl else fl + 1

/-- The `pct` closure inside `ofcom.Interpret`: whole-number percent string,
or the `"N/A"` sentinel when the value is missing or unparsable. -/
def pctKeys (row : Row) (keys : List String) : String :=
  let v := getFirst row keys
  if v = "" then "N/A"
  else
    match parseFloat v with
    | none => "N/A"
    | some f => toString (roundHalfEven (f * 100)) ++ "%"

/-- `ofcom.OperatorCoverage`. -/
structure OperatorCoverage where
  Name : String
  Voice : String
  FourG : String
  FiveG : String
  HasVoice : Bool
  HasFourG : Bool
  HasFiveG : Bool
deriving DecidableEq

/-- `ofcom.OverallCoverage`; the counts start at 0 and only increment. -/
structure OverallCoverage where
  AnyOperator : String
  FourGCount : Nat
  FiveGCount : Nat
deriving DecidableEq

/-- `ofcom.MobileSummary`. -/
structure MobileSummary where
  Postcode : String
  Operators : List OperatorCoverage
  Overall : OverallCoverage
deriving DecidableEq

/-- `ofcom.Interpret`: raw row to structured per-operator summary. -/
def Interpret (row : Row) : MobileSummary :=
  let operators : List OperatorCoverage :=
    [ { Name := "EE"
        Voice := pctKeys row ["ee_voice", "ee_voice_indoor"]
        FourG := pctKeys row ["ee_4g", "ee4g"]
        FiveG := pctKeys row ["ee_5g", "ee5g"]
        HasVoice := coveredKeys row ["ee_voice", "ee_voice_indoor"]
        HasFourG := coveredKeys row ["ee_4g", "ee4g"]
        HasFiveG := coveredKeys row ["ee_5g", "ee5g"] },
      { Name := "O2"
        Voice := pctKeys row ["o2_voice", "o2_voice_indoor"]
        FourG := pctKeys row ["o2_4g", "o24g"]
        FiveG := pctKeys row ["o2_5g", "o25g"]
        HasVoice := coveredKeys row ["o2_voice", "o2_voice_indoor"]
        HasFourG := coveredKeys row ["o2_4g", "o24g"]
        HasFiveG := coveredKeys row ["o2_5g", "o25g"] },
      { Name := "Three"
        Voice := pctKeys row ["three_voice", "three_voice_indoor"]
        FourG := pctKeys row ["three_4g", "three4g"]
        FiveG := pctKeys row ["three_5g", "three5g"]
        HasVoice := coveredKeys row ["three_voice", "three_voice_indoor"]
        HasFourG := coveredKeys row ["three_4g", "three4g"]
        HasFiveG := coveredKeys row ["three_5g", "three5g"] },
      { Name := "Vodafone"
        Voice := pctKeys row ["vodafone_voice", "vodafone_voice_indoor"]
        FourG := pctKeys row ["vodafone_4g", "vodafone4g"]
        FiveG := pctKeys row ["vodafone_5g", "vodafone5g"]
        HasVoice := coveredKeys row ["vodafone_voice", "vodafone_voice_indoor"]
        HasFourG := coveredKeys row ["vodafone_4g", "vodafone4g"]
        HasFiveG := coveredKeys row ["vodafone_5g", "vodafone5g"] } ]
  { Postcode := getFirst row ["postcode"]
    Operators := operators
    Overall :=
      { AnyOperator := pctKeys row ["any_operator", "any_coverage"]
        FourGCount := operators.foldl (fun n op => if op.HasFourG then n + 1 else n) 0
        FiveGCount := operators.foldl (fun n op => if op.HasFiveG then n + 1 else n) 0 } }

/-- `postcode.Result` (postcode.go): geographic data for a postcode.
Float fields are modelled as rationals, `int` fields as integers. -/
structure GeoResult where
  Postcode : String
  Country : String
  Region : String
  AdminDistrict : String
  ParliamentaryConstituency : String
  Latitude : ℚ
  Longitude : ℚ
  Eastings : ℤ
  Northings : ℤ
deriving DecidableEq

/-- `checker.Result`: the unified output of a coverage check.  Go's empty
string models the omitted `error`/`note`, `Option` models nil pointers. -/
structure CheckerResult where
  Postcode : String
  Valid : Bool
  Geographic : Option GeoResult
  Mobile : Option MobileSummary
  Error : String
  Note : String
deriving DecidableEq

/-- The zero value of `checker.Result`, as produced by `make([]Result, n)`. -/
def defaultResult : CheckerResult :=
  { Postcode := "", Valid := false, Geographic := none, Mobile := none
    Error := "", Note := "" }

/-- The outcome of `postcodeClient.Lookup`: `error` carries the rendered
message of the Go error value. -/
abbrev LookupFn := String → Except String GeoResult

/-- The outcome of `ofcomManager.QueryPostcode`: `ok none` is the
"row not found" case (`nil, nil` in Go), `error` a database failure. -/
abbrev QueryFn := String → Except String (Option Row)

/-- `checker.Check` (checker.go), with the two external collaborators as
parameters; each branch mirrors one early return of the Go function. -/
def Check (lookup : LookupFn) (query : QueryFn) (pc : String) : CheckerResult :=
  let normalised := Normalise pc
  match lookup pc with
  | .error e =>
    { defaultResult with
        Postcode := normalised
        Error := "Postcode lookup failed: " ++ e }
  | .ok geo =>
    match query normalised with
    | .error e =>
      { defaultResult with
          Postcode := normalised, Valid := true, Geographic := some geo
          Note := "Mobile data unavailable: " ++ e }
    | .ok none =>
      { defaultResult with
          Postcode := normalised, Valid := true, Geographic := some geo
          Note := "Postcode not found in Ofcom mobile dataset." }
    | .ok (some row) =>
      { defaultResult with
          Postcode := normalised, Valid := true, Geographic := some geo
          Mobile := some (Interpret row) }

/-- The messages the goroutines of `checker.CheckMultiple` put on the channel:
one `(index, Check postcode)` pair per input position.  The channel delivers
them in an arbitrary order; theorems quantify over every permutation. -/
def sentMessages (lookup : LookupFn) (query : QueryFn)
    (postcodes : List String) : List (Nat × CheckerResult) :=
  (List.range postcodes.length).zip (postcodes.map (Check lookup query))

/-- The receive loop of `checker.CheckMultiple`: each received message is
written into the output slot named by its index (`results[item.idx] = item.res`),
starting from the zero-valued slice `make([]Result, n)`. -/
def receiveAll (n : Nat) (msgs : List (Nat × CheckerResult)) : List CheckerResult :=
  msgs.foldl (fun acc m => acc.set m.1 m.2) (List.replicate n defaultResult)

/-- Header normalisation in `ofcom.buildDatabase`:
`strings.ToLower(strings.TrimSpace(strings.ReplaceAll(h, " ", "_")))` —
spaces become underscores first, then remaining edge whitespace is trimmed,
then the result is lowercased. -/
def normalizeHeader (h : String) : String :=
  String.mk ((trimSpaceList (h.data.map (fun c => if c = ' ' then '_' else c))).map goLowerChar)

/-- The header loop of `ofcom.buildDatabase`: every header column name is
normalised before use as a store column name. -/
def buildDatabaseHeaders (headers : List String) : List String :=
  headers.map normalizeHeader

/-- Modelled from the spec: header normalisation as the specification words
it — "lowercase, non-alphanumeric → underscore" — for comparison with
`normalizeHeader`, which is what `buildDatabase` actually does. -/
def specHeaderNormalize (h : String) : String :=
  String.mk (h.data.map (fun c => if c.isAlphanum then goLowerChar c else '_'))

/-- Modelled from the spec: postcode normalisation as claim C6 words it —
"uppercase form with all whitespace removed" — for comparison with
`Normalise`, which only strips spaces (and trims edge whitespace). -/
def specNormalise (s : String) : String :=
  String.mk ((s.data.filter (fun c => ¬ goIsSpace c)).map goUpperChar)

/-- Per-row postcode-column normalisation in `ofcom.buildDatabase`: for each
header equal to `"postcode"`, the corresponding field is normalised. -/
def normalizeRecord (headers : List String) (record : List String) : List String :=
  List.zipWith (fun h v => if h = "postcode" then Normalise v else v) headers record

/-- State of the ingestion loop of `ofcom.buildDatabase`: rows inserted so
far (in order), the row counter, and the number of mid-loop batch commits. -/
structure IngestState where
  rows : List (List String)
  count : Nat
  commits : Nat
deriving DecidableEq

/-- The row loop of `ofcom.buildDatabase`.  Each element of `records` is one
`reader.Read()` outcome: `none` is a parse error (the Go loop `continue`s),
`some r` a parsed record, which is normalised, inserted and counted; every
50000 inserted rows the transaction is committed. -/
def ingestRows (headers : List String) :
    List (Option (List String)) → IngestState → IngestState
  | [], st => st
  | none :: rest, st => ingestRows headers rest st
  | some r :: rest, st =>
    ingestRows headers rest
      { rows := st.rows ++ [normalizeRecord headers r]
        count := st.count + 1
        commits := if (st.count + 1) % 50000 = 0 then st.commits + 1 else st.commits }

/-- Ingestion of a full record stream from the empty state. -/
def buildDatabaseRows (headers : List String)
    (records : List (Option (List String))) : IngestState :=
  ingestRows headers records ⟨[], 0, 0⟩

/-- A row update: Go `row[k] = v`. -/
def setKey (r : Row) (k v : String) : Row :=
  fun x => if x = k then some v else r x

/-- A row deletion: Go `delete(row, k)`. -/
def removeKey (r : Row) (k : String) : Row :=
  fun x => if x = k then none else r x

theorem parseFloat_empty : parseFloat "" = none := rfl

/-- Bridge between the kernel-friendly threshold and the spec's `0.5`. -/
theorem mkRat_half : mkRat 1 2 = (1 : ℚ) / 2 := by
  norm_num [mkRat, Rat.normalize]

/-- The alias search treats a key present with the empty string exactly like
an absent key: it falls through to the next candidate. -/
theorem getFirst_setKey_empty (r : Row) (k : String) :
    ∀ ks, getFirst (setKey r k "") ks = getFirst (removeKey r k) ks := by
  intro ks
  induction ks with
  | nil => rfl
  | cons a t ih =>
    by_cases h : a = k
    · subst h
      simp [getFirst, setKey, removeKey, ih]
    · cases hr : r a <;> simp [getFirst, setKey, removeKey, h, hr, ih]

/-- Counting loop of `Interpret` as a filter length. -/
theorem foldl_count_flag (p : OperatorCoverage → Bool) :
    ∀ (l : List OperatorCoverage) (n : Nat),
      l.foldl (fun n op => if p op then n + 1 else n) n = n + (l.filter p).length := by
  intro l
  induction l with
  | nil => simp
  | cons a t ih =>
    intro n
    by_cases h : p a <;> simp [h, ih] <;> omega

/-- Claim C1: for every row and candidate-key list, the interpreter's covered
flag is true iff the first present non-empty candidate value parses as a
rational at least 1/2; absent or unparsable values give `false`.  The
per-operator flags of `Interpret` are exactly these `coveredKeys` values, and
on the boundary `0.499999` is not covered while `0.5` is. -/
theorem interpret_covered_iff_half (row : Row) :
    (∀ ks : List String, coveredKeys row ks = true ↔
        ∃ f : ℚ, parseFloat (getFirst row ks) = some f ∧ (1 : ℚ) / 2 ≤ f)
    ∧ ((Interpret row).Operators.map OperatorCoverage.HasFourG =
        [coveredKeys row ["ee_4g", "ee4g"], coveredKeys row ["o2_4g", "o24g"],
         coveredKeys row ["three_4g", "three4g"], coveredKeys row ["vodafone_4g", "vodafone4g"]])
    ∧ ((Interpret row).Operators.map OperatorCoverage.HasFiveG =
        [coveredKeys row ["ee_5g", "ee5g"], coveredKeys row ["o2_5g", "o25g"],
         coveredKeys row ["three_5g", "three5g"], coveredKeys row ["vodafone_5g", "vodafone5g"]])
    ∧ ((Interpret row).Operators.map OperatorCoverage.HasVoice =
        [coveredKeys row ["ee_voice", "ee_voice_indoor"], coveredKeys row ["o2_voice", "o2_voice_indoor"],
         coveredKeys row ["three_voice", "three_voice_indoor"],
         coveredKeys row ["vodafone_voice", "vodafone_voice_indoor"]])
    ∧ ((Interpret (fun k => if k = "ee_4g" then some "0.499999" else none)).Operators.map
        OperatorCoverage.HasFourG = [false, false, false, false])
    ∧ ((Interpret (fun k => if k = "ee_4g" then some "0.5" else none)).Operators.map
        OperatorCoverage.HasFourG = [true, false, false, false]) := by
  refine ⟨?_, rfl, rfl, rfl, by decide, by decide⟩
  intro ks
  by_cases h : getFirst row ks = ""
  · simp only [coveredKeys, h, if_pos rfl, parseFloat_empty]
    simp [h, parseFloat_empty]
  · cases hp : parseFloat (getFirst row ks) with
    | none => simp [coveredKeys, h, hp]
    | some f => simp [coveredKeys, h, hp, mkRat_half]

/-- Claim C2: for every row, `Interpret` returns exactly four operators,
named EE, O2, Three, Vodafone in that order. -/
theorem interpret_operators_fixed (row : Row) :
    (Interpret row).Operators.length = 4 ∧
    (Interpret row).Operators.map OperatorCoverage.Name = ["EE", "O2", "Three", "Vodafone"] :=
  ⟨rfl, rfl⟩

/-- Claim C4: the overall 4G/5G counts equal the number of true flags in the
returned operator list. -/
theorem interpret_counts_match_flags (row : Row) :
    (Interpret row).Overall.FourGCount =
      ((Interpret row).Operators.filter (fun op => op.HasFourG)).length ∧
    (Interpret row).Overall.FiveGCount =
      ((Interpret row).Operators.filter (fun op => op.HasFiveG)).length := by
  constructor
  · have h := foldl_count_flag (fun op => op.HasFourG) (Interpret row).Operators 0
    simpa using h
  · have h := foldl_count_flag (fun op => op.HasFiveG) (Interpret row).Operators 0
    simpa using h

/-- Claim C10: a column present with the empty-string value behaves exactly
like an absent column: `Interpret` cannot distinguish the two rows. -/
theorem interpret_empty_eq_absent (r : Row) (k : String) :
    Interpret (setKey r k "") = Interpret (removeKey r k) := by
  have hg := getFirst_setKey_empty r k
  simp only [Interpret, coveredKeys, pctKeys, hg]

/-- Appending to a nonempty string never yields the empty string. -/
theorem append_ne_empty_of_left {s : String} (t : String) (h : s.data ≠ []) :
    s ++ t ≠ "" := by
  intro he
  have hd : (s ++ t).data = [] := by rw [he]
  have : s.data ++ t.data = [] := hd
  rcases List.append_eq_nil.mp this with ⟨h1, _⟩
  exact h h1

/-- Claim C3: when geocoding fails, `Check` returns an invalid `Result`
carrying the error, with `Mobile` empty; the result does not depend on the
dataset at all (`query` is never consulted), and in general every `Check`
result with `Valid = false` has `Mobile = none`. -/
theorem check_geocode_failure (lookup : LookupFn) (query query2 : QueryFn)
    (pc e : String) (h : lookup pc = .error e) :
    (Check lookup query pc).Valid = false ∧
    (Check lookup query pc).Error = "Postcode lookup failed: " ++ e ∧
    (Check lookup query pc).Mobile = none ∧
    Check lookup query pc = Check lookup query2 pc ∧
    (∀ (l : LookupFn) (q : QueryFn) (p : String),
        (Check l q p).Valid = false → (Check l q p).Mobile = none) := by
  refine ⟨by simp [Check, h, defaultResult], by simp [Check, h, defaultResult],
    by simp [Check, h, defaultResult], by simp [Check, h], ?_⟩
  intro l q p hv
  unfold Check at hv ⊢
  cases hl : l p with
  | error e2 => simp [hl, defaultResult]
  | ok geo =>
    cases hq : q (Normalise p) with
    | error e2 => simp [hl, hq, defaultResult] at hv
    | ok o => cases o <;> simp [hl, hq, defaultResult] at hv

/-- Witness for `check_geocode_failure` at a concrete failing lookup. -/
theorem check_geocode_failure_witness :
    (Check (fun _ => .error "boom") (fun _ => .ok none) "sw1a 1aa").Valid = false ∧
    (Check (fun _ => .error "boom") (fun _ => .ok none) "sw1a 1aa").Error =
      "Postcode lookup failed: " ++ "boom" ∧
    (Check (fun _ => .error "boom") (fun _ => .ok none) "sw1a 1aa").Mobile = none ∧
    Check (fun _ => .error "boom") (fun _ => .ok none) "sw1a 1aa" =
      Check (fun _ => .error "boom") (fun _ => .error "db down") "sw1a 1aa" ∧
    (∀ (l : LookupFn) (q : QueryFn) (p : String),
        (Check l q p).Valid = false → (Check l q p).Mobile = none) :=
  check_geocode_failure (fun _ => .error "boom") (fun _ => .ok none)
    (fun _ => .error "db down") "sw1a 1aa" "boom" rfl

/-- Claim C8: when geocoding succeeds but the dataset query errors or finds
no row, `Check` returns a valid `Result` with a human-readable note and
`Mobile` empty. -/
theorem check_dataset_error_or_missing (lookup : LookupFn) (query : QueryFn)
    (pc e : String) (geo : GeoResult) (hl : lookup pc = .ok geo)
    (hq : query (Normalise pc) = .error e ∨ query (Normalise pc) = .ok none) :
    (Check lookup query pc).Valid = true ∧
    (Check lookup query pc).Mobile = none ∧
    (Check lookup query pc).Note ≠ "" ∧
    ((Check lookup query pc).Note = "Mobile data unavailable: " ++ e ∨
     (Check lookup query pc).Note = "Postcode not found in Ofcom mobile dataset.") := by
  rcases hq with hq | hq
  · refine ⟨by simp [Check, hl, hq, defaultResult], by simp [Check, hl, hq, defaultResult], ?_, ?_⟩
    · have : (Check lookup query pc).Note = "Mobile data unavailable: " ++ e := by
        simp [Check, hl, hq, defaultResult]
      rw [this]
      exact append_ne_empty_of_left e (by decide)
    · left
      simp [Check, hl, hq, defaultResult]
  · refine ⟨by simp [Check, hl, hq, defaultResult], by simp [Check, hl, hq, defaultResult], ?_, ?_⟩
    · have : (Check lookup query pc).Note = "Postcode not found in Ofcom mobile dataset." := by
        simp [Check, hl, hq, defaultResult]
      rw [this]
      decide
    · right
      simp [Check, hl, hq, defaultResult]

/-- A concrete geographic result used by witnesses. -/
def geoSample : GeoResult :=
  { Postcode := "SW1A1AA", Country := "England", Region := "London",
    AdminDistrict := "Westminster", ParliamentaryConstituency := "",
    Latitude := 0, Longitude := 0, Eastings := 0, Northings := 0 }

/-- Witness for `check_dataset_error_or_missing` at a concrete dataset miss. -/
theorem check_dataset_error_or_missing_witness :
    (Check (fun _ => .ok geoSample) (fun _ => .ok none) "sw1a 1aa").Valid = true ∧
    (Check (fun _ => .ok geoSample) (fun _ => .ok none) "sw1a 1aa").Mobile = none ∧
    (Check (fun _ => .ok geoSample) (fun _ => .ok none) "sw1a 1aa").Note ≠ "" ∧
    ((Check (fun _ => .ok geoSample) (fun _ => .ok none) "sw1a 1aa").Note =
       "Mobile data unavailable: " ++ "nope" ∨
     (Check (fun _ => .ok geoSample) (fun _ => .ok none) "sw1a 1aa").Note =
       "Postcode not found in Ofcom mobile dataset.") :=
  check_dataset_error_or_missing (fun _ => .ok geoSample) (fun _ => .ok none)
    "sw1a 1aa" "nope" geoSample rfl (Or.inr rfl)

/-- Inserted rows of the ingestion loop, from any starting state: exactly the
parsed records, normalised, appended in order. -/
theorem ingestRows_rows (headers : List String) :
    ∀ (records : List (Option (List String))) (st : IngestState),
      (ingestRows headers records st).rows =
        st.rows ++ (records.filterMap id).map (normalizeRecord headers) := by
  intro records
  induction records with
  | nil => intro st; simp [ingestRows]
  | cons r rest ih =>
    intro st
    cases r with
    | none => simp [ingestRows, ih]
    | some v => simp [ingestRows, ih]

/-- Row counter of the ingestion loop: the number of parsed records. -/
theorem ingestRows_count (headers : List String) :
    ∀ (records : List (Option (List String))) (st : IngestState),
      (ingestRows headers records st).count =
        st.count + (records.filterMap id).length := by
  intro records
  induction records with
  | nil => intro st; simp [ingestRows]
  | cons r rest ih =>
    intro st
    cases r with
    | none => simp [ingestRows, ih]
    | some v => simp [ingestRows, ih]; omega

/-- Commit counter of the ingestion loop: one commit per full batch of 50000
parsed rows, counted from the starting state. -/
theorem ingestRows_commits (headers : List String) :
    ∀ (records : List (Option (List String))) (st : IngestState),
      (ingestRows headers records st).commits =
        st.commits + ((st.count + (records.filterMap id).length) / 50000 - st.count / 50000) := by
  intro records
  induction records with
  | nil => intro st; simp [ingestRows]
  | cons r rest ih =>
    intro st
    cases r with
    | none => simp [ingestRows, ih]
    | some v =>
      simp [ingestRows, ih]
      by_cases hP : (st.count + 1) % 50000 = 0
      · rw [if_pos hP]; omega
      · rw [if_neg hP]; omega

/-- Ingestion ignores failed records entirely: the run over a stream equals
the run over just its parsed records. -/
theorem ingestRows_skip_failures (headers : List String) :
    ∀ (records : List (Option (List String))) (st : IngestState),
      ingestRows headers records st =
        ingestRows headers ((records.filterMap id).map some) st := by
  intro records
  induction records with
  | nil => intro st; simp [ingestRows]
  | cons r rest ih =>
    intro st
    cases r with
    | none => simp [ingestRows, ih]
    | some v => simp [ingestRows, ih]

/-- Claim C9: rows that fail to parse are skipped and ingestion always
completes over the remaining rows — the inserted rows are exactly the parsed
ones (normalised), parse failures are invisible to the outcome, and a batch
commit happens after every 50000 inserted rows. -/
theorem ingestion_skips_bad_rows (headers : List String)
    (records : List (Option (List String))) :
    (buildDatabaseRows headers records).rows =
      (records.filterMap id).map (normalizeRecord headers) ∧
    (buildDatabaseRows headers records).count = (records.filterMap id).length ∧
    (buildDatabaseRows headers records).commits = (records.filterMap id).length / 50000 ∧
    buildDatabaseRows headers records =
      buildDatabaseRows headers ((records.filterMap id).map some) := by
  refine ⟨?_, ?_, ?_, ?_⟩
  · simpa using ingestRows_rows headers records ⟨[], 0, 0⟩
  · simpa using ingestRows_count headers records ⟨[], 0, 0⟩
  · simpa using ingestRows_commits headers records ⟨[], 0, 0⟩
  · exact ingestRows_skip_failures headers records ⟨[], 0, 0⟩

/-- Writing received messages into index-addressed slots never changes the
slice length. -/
theorem length_foldl_set :
    ∀ (msgs : List (Nat × CheckerResult)) (init : List CheckerResult),
      (msgs.foldl (fun acc m => acc.set m.1 m.2) init).length = init.length := by
  intro msgs
  induction msgs with
  | nil => intro init; rfl
  | cons m rest ih => intro init; rw [List.foldl_cons, ih, List.length_set]

/-- Slots whose index never occurs among the messages keep their value. -/
theorem foldl_set_not_mem :
    ∀ (msgs : List (Nat × CheckerResult)) (init : List CheckerResult) (i : Nat),
      i ∉ msgs.map Prod.fst →
      (msgs.foldl (fun acc m => acc.set m.1 m.2) init)[i]? = init[i]? := by
  intro msgs
  induction msgs with
  | nil => intro init i _; rfl
  | cons m rest ih =>
    intro init i hi
    rw [List.map_cons, List.mem_cons] at hi
    push_neg at hi
    rw [List.foldl_cons, ih _ _ hi.2, List.getElem?_set_ne (Ne.symm hi.1)]

/-- A slot receives the value of its message when message indices are
distinct: the final slice holds `v` at `i` whenever `(i, v)` was sent. -/
theorem foldl_set_mem :
    ∀ (msgs : List (Nat × CheckerResult)) (init : List CheckerResult)
      (i : Nat) (v : CheckerResult), (i, v) ∈ msgs →
      (msgs.map Prod.fst).Nodup → i < init.length →
      (msgs.foldl (fun acc m => acc.set m.1 m.2) init)[i]? = some v := by
  intro msgs
  induction msgs with
  | nil => intro _ _ _ h; exact absurd h (List.not_mem_nil _)
  | cons m rest ih =>
    intro init i v hmem hnd hlen
    obtain ⟨j, w⟩ := m
    rw [List.map_cons, List.nodup_cons] at hnd
    rw [List.mem_cons] at hmem
    rcases hmem with heq | hmem
    · cases heq
      rw [List.foldl_cons, foldl_set_not_mem rest _ i hnd.1]
      exact List.getElem?_set_eq_of_lt v (by simpa using hlen)
    · rw [List.foldl_cons]
      exact ih _ i v hmem hnd.2 (by simpa using hlen)

/-- Claim C5: whatever order the concurrent per-postcode checks complete in
(any permutation of the sent messages), `CheckMultiple`'s receive loop yields
a list of the input's length whose `i`-th element is `Check` of the `i`-th
input postcode. -/
theorem checkMultiple_ordered (lookup : LookupFn) (query : QueryFn)
    (postcodes : List String) (msgs : List (Nat × CheckerResult))
    (hperm : msgs.Perm (sentMessages lookup query postcodes)) :
    (receiveAll postcodes.length msgs).length = postcodes.length ∧
    ∀ (i : Nat) (hi : i < postcodes.length),
      (receiveAll postcodes.length msgs)[i]? =
        some (Check lookup query (postcodes.get ⟨i, hi⟩)) := by
  have hlen0 : (sentMessages lookup query postcodes).map Prod.fst =
      List.range postcodes.length := by
    apply List.map_fst_zip
    simp
  have hnd : (msgs.map Prod.fst).Nodup := by
    have hp2 := hperm.map Prod.fst
    rw [List.Perm.nodup_iff hp2, hlen0]
    exact List.nodup_range _
  constructor
  · rw [receiveAll, length_foldl_set, List.length_replicate]
  · intro i hi
    have hmem : (i, Check lookup query (postcodes.get ⟨i, hi⟩)) ∈
        sentMessages lookup query postcodes := by
      have hz : i < (sentMessages lookup query postcodes).length := by
        simp [sentMessages, hi]
      have : (sentMessages lookup query postcodes)[i] =
          (i, Check lookup query (postcodes.get ⟨i, hi⟩)) := by
        simp [sentMessages, List.getElem_zip]
      rw [← this]
      exact List.getElem_mem hz
    rw [receiveAll]
    exact foldl_set_mem msgs _ i _ (hperm.mem_iff.mpr hmem) hnd
      (by rw [List.length_replicate]; exact hi)

/-- Witness for `checkMultiple_ordered`: three postcodes whose messages
arrive in reversed completion order still land in input order. -/
theorem checkMultiple_ordered_witness :
    (receiveAll 3 ((sentMessages (fun _ => .error "x") (fun _ => .ok none)
        ["A", "B", "C"]).reverse)).length = 3 ∧
    ∀ (i : Nat) (hi : i < 3),
      (receiveAll 3 ((sentMessages (fun _ => .error "x") (fun _ => .ok none)
          ["A", "B", "C"]).reverse))[i]? =
        some (Check (fun _ => .error "x") (fun _ => .ok none)
          ((["A", "B", "C"] : List String).get ⟨i, hi⟩)) := by
  have h := checkMultiple_ordered (fun _ => .error "x") (fun _ => .ok none)
    ["A", "B", "C"]
    ((sentMessages (fun _ => .error "x") (fun _ => .ok none) ["A", "B", "C"]).reverse)
    (List.reverse_perm _)
  exact h

/-- `Char.ofNat` round-trips on valid (below-surrogate) code points. -/
theorem toNat_ofNat_of_valid {n : Nat} (h : n < 55296) : (Char.ofNat n).toNat = n := by
  unfold Char.ofNat
  rw [dif_pos (Or.inl h)]
  rfl

/-- Code point of an uppercased lowercase letter. -/
theorem goUpperChar_toNat {c : Char} (h : 97 ≤ c.toNat ∧ c.toNat ≤ 122) :
    (goUpperChar c).toNat = c.toNat - 32 := by
  rw [goUpperChar, if_pos h]
  exact toNat_ofNat_of_valid (by omega)

/-- `goUpperChar` fixes everything outside `a`..`z`. -/
theorem goUpperChar_eq_self {c : Char} (h : ¬ (97 ≤ c.toNat ∧ c.toNat ≤ 122)) :
    goUpperChar c = c := by
  rw [goUpperChar, if_neg h]

/-- Uppercasing is idempotent (ASCII model). -/
theorem goUpperChar_idem (c : Char) : goUpperChar (goUpperChar c) = goUpperChar c := by
  by_cases h : 97 ≤ c.toNat ∧ c.toNat ≤ 122
  · have h1 := goUpperChar_toNat h
    exact goUpperChar_eq_self (by omega)
  · rw [goUpperChar_eq_self h]
    exact goUpperChar_eq_self h

/-- Uppercasing neither creates nor destroys whitespace. -/
theorem goIsSpace_goUpperChar (c : Char) : goIsSpace (goUpperChar c) = goIsSpace c := by
  by_cases h : 97 ≤ c.toNat ∧ c.toNat ≤ 122
  · have h1 := goUpperChar_toNat h
    have e1 : goIsSpace (goUpperChar c) = false := by
      simp only [goIsSpace, h1, Bool.or_eq_false_iff, decide_eq_false_iff_not]
      omega
    have e2 : goIsSpace c = false := by
      simp only [goIsSpace, Bool.or_eq_false_iff, decide_eq_false_iff_not]
      omega
    rw [e1, e2]
  · rw [goUpperChar_eq_self h]

/-- Uppercasing never produces a space character from a non-space. -/
theorem goUpperChar_ne_space {c : Char} (h : c ≠ ' ') : goUpperChar c ≠ ' ' := by
  by_cases hr : 97 ≤ c.toNat ∧ c.toNat ≤ 122
  · have h1 := goUpperChar_toNat hr
    intro he
    rw [he] at h1
    have hsp : (' ' : Char).toNat = 32 := rfl
    omega
  · rw [goUpperChar_eq_self hr]
    exact h

/-- A character that is no whitespace is in particular not the space. -/
theorem ne_space_of_goIsSpace_false {c : Char} (h : goIsSpace c = false) : c ≠ ' ' := by
  intro he
  rw [he] at h
  exact absurd h (by decide)

/-- Wrapper for the library fact that `dropWhile` drops until `p` fails. -/
theorem head_dropWhile_false (p : Char → Bool) (l : List Char) {a : Char}
    (h : (l.dropWhile p).head? = some a) : p a = false := by
  have hw := List.head?_dropWhile_not p l
  rw [h] at hw
  exact hw

/-- `dropWhile` is the identity when the head already fails `p`. -/
theorem dropWhile_eq_self_of_head {p : Char → Bool} {l : List Char}
    (h : ∀ a, l.head? = some a → p a = false) : l.dropWhile p = l := by
  cases l with
  | nil => rfl
  | cons a t => simp [List.dropWhile_cons, h a rfl]

/-- The head of a trimmed list is never whitespace. -/
theorem trimSpaceList_head {l : List Char} {a : Char}
    (h : (trimSpaceList l).head? = some a) : goIsSpace a = false := by
  rw [trimSpaceList, List.head?_reverse] at h
  obtain ⟨pre, hpre⟩ :=
    List.dropWhile_suffix (l := (l.dropWhile goIsSpace).reverse) (p := goIsSpace)
  cases hX : (l.dropWhile goIsSpace).reverse.dropWhile goIsSpace with
  | nil => rw [hX] at h; exact absurd h (by simp)
  | cons b t =>
    rw [hX] at h hpre
    have hlast : (pre ++ (b :: t)).getLast? = (b :: t).getLast? :=
      List.getLast?_append_of_ne_nil pre (by simp)
    rw [hpre, List.getLast?_reverse] at hlast
    rw [← hlast] at h
    exact head_dropWhile_false goIsSpace l h

/-- The last element of a trimmed list is never whitespace. -/
theorem trimSpaceList_getLast {l : List Char} {a : Char}
    (h : (trimSpaceList l).getLast? = some a) : goIsSpace a = false := by
  rw [trimSpaceList, List.getLast?_reverse] at h
  exact head_dropWhile_false goIsSpace _ h

/-- Trimming is the identity on lists with non-whitespace ends. -/
theorem trimSpaceList_eq_self {l : List Char}
    (h1 : ∀ a, l.head? = some a → goIsSpace a = false)
    (h2 : ∀ a, l.getLast? = some a → goIsSpace a = false) :
    trimSpaceList l = l := by
  rw [trimSpaceList, dropWhile_eq_self_of_head h1]
  rw [dropWhile_eq_self_of_head (fun a ha => h2 a (by rwa [List.head?_reverse] at ha))]
  exact List.reverse_reverse l

/-- No space character survives normalisation. -/
theorem normaliseList_mem_ne_space (l : List Char) :
    ∀ a ∈ normaliseList l, a ≠ ' ' := by
  intro a ha
  rw [normaliseList, List.mem_map] at ha
  obtain ⟨b, hb, rfl⟩ := ha
  rw [List.mem_filter] at hb
  exact goUpperChar_ne_space (by simpa using hb.2)

/-- The head of a normalised list is never whitespace. -/
theorem normaliseList_head {l : List Char} {a : Char}
    (h : (normaliseList l).head? = some a) : goIsSpace a = false := by
  cases hT : trimSpaceList l with
  | nil =>
    rw [normaliseList, hT] at h
    exact absurd h (by simp)
  | cons b t =>
    have hb : goIsSpace b = false := trimSpaceList_head (by rw [hT]; rfl)
    have hbq : b ≠ ' ' := ne_space_of_goIsSpace_false hb
    rw [normaliseList, hT, List.filter_cons, if_pos (by simpa using hbq),
      List.map_cons] at h
    have ha : a = goUpperChar b := by
      rw [List.head?_cons] at h
      exact (Option.some.injEq _ _).mp h.symm
    rw [ha, goIsSpace_goUpperChar]
    exact hb

/-- The last element of a normalised list is never whitespace. -/
theorem normaliseList_getLast {l : List Char} {a : Char}
    (h : (normaliseList l).getLast? = some a) : goIsSpace a = false := by
  rw [normaliseList, List.getLast?_map] at h
  rw [show ((trimSpaceList l).filter (fun c => c ≠ ' ')).getLast?
      = (((trimSpaceList l).reverse).filter (fun c => c ≠ ' ')).head? by
    rw [List.filter_reverse, List.head?_reverse]] at h
  cases hT : (trimSpaceList l).reverse with
  | nil =>
    rw [hT] at h
    exact absurd h (by simp)
  | cons b t =>
    have hb : goIsSpace b = false := by
      apply trimSpaceList_getLast (l := l)
      rw [← List.head?_reverse, hT]
      rfl
    have hbq : b ≠ ' ' := ne_space_of_goIsSpace_false hb
    rw [hT, List.filter_cons, if_pos (by simpa using hbq), List.head?_cons] at h
    have ha : a = goUpperChar b := by
      simpa using h.symm
    rw [ha, goIsSpace_goUpperChar]
    exact hb

/-- Normalisation of the character pipeline is idempotent. -/
theorem normaliseList_idem (l : List Char) :
    normaliseList (normaliseList l) = normaliseList l := by
  rw [normaliseList]
  rw [trimSpaceList_eq_self (fun a ha => normaliseList_head ha)
    (fun a ha => normaliseList_getLast ha)]
  rw [List.filter_eq_self.mpr
    (fun a ha => by simpa using normaliseList_mem_ne_space l a ha)]
  rw [normaliseList, List.map_map]
  exact List.map_congr_left (fun a _ => goUpperChar_idem a)

/-- `Normalise` is idempotent. -/
theorem Normalise_Normalise (s : String) : Normalise (Normalise s) = Normalise s := by
  show String.mk (normaliseList (Normalise s).data) = Normalise s
  have hd : (Normalise s).data = normaliseList s.data := rfl
  rw [hd, normaliseList_idem]
  rfl

/-- Counterexample to claim C6 as stated: `Normalise` does not remove all
whitespace — an interior tab survives, while the claimed "uppercase with all
whitespace removed" form (`specNormalise`) deletes it. -/
theorem normalise_keeps_interior_tab :
    Normalise "a\tb" = "A\tB" ∧ specNormalise "a\tb" = "AB" ∧
    Normalise "a\tb" ≠ specNormalise "a\tb" :=
  ⟨by decide, by decide, by decide⟩

/-- Claim C6 as amended: `Normalise` uppercases after trimming edge
whitespace and removing all space (U+0020) characters; it is idempotent, and
postcodes differing only in case or internal spacing normalise identically. -/
theorem normalise_amended (s : String) :
    Normalise s =
      String.mk (((trimSpaceList s.data).filter (fun c => c ≠ ' ')).map goUpperChar) ∧
    Normalise (Normalise s) = Normalise s ∧
    Normalise "sw1a 1aa" = "SW1A1AA" ∧
    Normalise "SW1A1AA" = "SW1A1AA" ∧
    Normalise "  sw1a  1aa  " = "SW1A1AA" :=
  ⟨rfl, Normalise_Normalise s, by decide, by decide, by decide⟩

/-- Counterexample to claim C7 as stated: header normalisation does not map
every non-alphanumeric character to an underscore — a hyphen survives, while
the claimed lowercase-and-underscore form (`specHeaderNormalize`) replaces
it. -/
theorem header_keeps_hyphen :
    normalizeHeader "EE-4G" = "ee-4g" ∧ specHeaderNormalize "EE-4G" = "ee_4g" ∧
    normalizeHeader "EE-4G" ≠ specHeaderNormalize "EE-4G" :=
  ⟨by decide, by decide, by decide⟩

/-- Claim C7 as amended: during ingestion every CSV header column name is
normalised by replacing each space with an underscore, then trimming
leading/trailing whitespace, then lowercasing, before use as a store column
name. -/
theorem header_normalisation (headers : List String) :
    buildDatabaseHeaders headers = headers.map normalizeHeader ∧
    (∀ h : String, normalizeHeader h =
      String.mk ((trimSpaceList (h.data.map (fun c => if c = ' ' then '_' else c))).map
        goLowerChar)) ∧
    normalizeHeader "EE 4G" = "ee_4g" ∧
    normalizeHeader " Postcode " = "_postcode_" ∧
    normalizeHeader "\tPostcode\t" = "postcode" ∧
    normalizeHeader "Postcode" = "postcode" :=
  ⟨rfl, fun _ => rfl, by decide, by decide, by decide, by decide⟩

end MobileChecker
